import Mathlib

/-!
Verification development for the cart-to-order checkout core of the
be-payplex backend (cartController, Product and User schemas).

The JavaScript source is embedded shallowly:

- Mongo documents become structures; JS numbers holding money become
  rationals, so Math.round(x * 100) / 100 is modelled exactly on the
  decimal values the code manipulates.
- The three collections become one state record with a user table, a
  product table and an order list; countDocuments is the length of the
  order list.
- Every handler becomes a function from state to response and state.
  Handlers that can throw inside a try block take an explicit fault
  schedule saying which storage call fails; the catch block of the
  source performs no compensation, so a fault simply stops execution
  at the failed call and surfaces a 500 response.
- The product quantity field is an integer, not a natural number: the
  decrement issued by checkout is findByIdAndUpdate with an
  unconditional inc of minus quantity, which can drive the stored
  value below zero, and the schema min validator does not run for
  update operators by default.
-/

namespace Payplex

/-- Product status enum of productSchema: active, inactive, discontinued. -/
inductive PStatus where
  | active
  | inactive
  | discontinued
deriving DecidableEq, Repr

/-- The slice of a Product document read or written by the cart controller. -/
structure Product where
  productName : String
  price : ℚ
  quantity : ℤ
  status : PStatus
deriving DecidableEq, Repr

/-- One cart line as stored on the User document: product reference and quantity. -/
structure CartItem where
  productId : ℕ
  quantity : ℤ
deriving DecidableEq, Repr

/-- The slice of a User document used by the cart controller. -/
structure User where
  address : String
  cart : List CartItem
deriving DecidableEq, Repr

/-- One order line snapshot, captured by value at checkout time. -/
structure OrderItem where
  productId : ℕ
  productName : String
  price : ℚ
  quantity : ℤ
  subtotal : ℚ
deriving DecidableEq, Repr

/-- An Order document as persisted by checkout. -/
structure Order where
  userId : ℕ
  orderId : String
  items : List OrderItem
  subtotal : ℚ
  tax : ℚ
  total : ℚ
  shippingAddress : String
  status : String
  paymentStatus : String
deriving DecidableEq, Repr

/-- Storage state: the user collection, the product collection and the
order collection. The two keyed collections are partial maps from
document ids. -/
@[ext]
structure St where
  users : ℕ → Option User
  products : ℕ → Option Product
  orders : List Order

/-- Write back one user document (user.save). -/
def setUser (s : St) (uid : ℕ) (u : User) : St :=
  { s with users := fun k => if k = uid then some u else s.users k }

/-- findByIdAndUpdate on the product collection: a no-op when the id
does not resolve, otherwise the document is replaced by f applied to it. -/
def updateProduct (ps : ℕ → Option Product) (pid : ℕ) (f : Product → Product) :
    ℕ → Option Product :=
  fun k => if k = pid then (ps k).map f else ps k

/-- Failure responses of the cart endpoints. -/
inductive CartErr where
  | invalidQuantity
  | userNotFound
  | productNotFound
  | insufficientStock (available : ℤ)
  | lineNotFound
deriving DecidableEq, Repr

/-- Decidable equality of handler results. -/
instance {ε α : Type} [DecidableEq ε] [DecidableEq α] : DecidableEq (Except ε α) :=
  fun x y =>
    match x, y with
    | .ok a, .ok b =>
      if h : a = b then .isTrue (by rw [h]) else .isFalse (by simp [h])
    | .error e, .error f =>
      if h : e = f then .isTrue (by rw [h]) else .isFalse (by simp [h])
    | .ok _, .error _ => .isFalse (by simp)
    | .error _, .ok _ => .isFalse (by simp)

/-- Replace the quantity of the first cart line carrying the given
product id, as the source does by mutating the object returned by
cart.find in place. -/
def setQtyFirst (pid : ℕ) (q : ℤ) : List CartItem → List CartItem
  | [] => []
  | it :: rest =>
    if it.productId = pid then { it with quantity := q } :: rest
    else it :: setQtyFirst pid q rest

/-- addToCart: validate the quantity, resolve user and product, check
the advisory stock bound, then merge into an existing line or push a
new one. The source rejects a zero quantity at the required-fields
check (zero is falsy) and other nonpositive quantities at the
positive-integer check; both are invalidQuantity here. -/
def addToCart (uid pid : ℕ) (qty : ℤ) (s : St) :
    Except CartErr (List CartItem) × St :=
  if qty ≤ 0 then (.error .invalidQuantity, s)
  else
    match s.users uid with
    | none => (.error .userNotFound, s)
    | some user =>
      match s.products pid with
      | none => (.error .productNotFound, s)
      | some product =>
        if product.quantity < qty then
          (.error (.insufficientStock product.quantity), s)
        else
          match user.cart.find? (fun it => it.productId == pid) with
          | some existing =>
            let newQuantity := existing.quantity + qty
            if product.quantity < newQuantity then
              (.error (.insufficientStock product.quantity), s)
            else
              let cart := setQtyFirst pid newQuantity user.cart
              (.ok cart, setUser s uid { user with cart := cart })
          | none =>
            let cart := user.cart ++ [⟨pid, qty⟩]
            (.ok cart, setUser s uid { user with cart := cart })

/-- The populate step of getCart followed by the reduce computing the
total: sum of price times quantity over the lines, in stored order,
with no rounding and no tax. none when the user is missing or some
line references a missing product, in which case the source throws
reading price of null and answers 500. -/
def cartTotal (ps : ℕ → Option Product) : List CartItem → Option ℚ
  | [] => some 0
  | it :: rest =>
    match ps it.productId, cartTotal ps rest with
    | some p, some t => some (p.price * it.quantity + t)
    | _, _ => none

/-- getCart: pure read returning the cart lines and the reduce total. -/
def getCart (uid : ℕ) (s : St) : Option (List CartItem × ℚ) :=
  match s.users uid with
  | none => none
  | some user => (cartTotal s.products user.cart).map fun t => (user.cart, t)

/-- removeFromCart: filter the line out; no check that the line, or
even the product, exists. -/
def removeFromCart (uid pid : ℕ) (s : St) :
    Except CartErr (List CartItem) × St :=
  match s.users uid with
  | none => (.error .userNotFound, s)
  | some user =>
    let cart := user.cart.filter fun it => it.productId != pid
    (.ok cart, setUser s uid { user with cart := cart })

/-- updateCartQuantity: validate the quantity, resolve user and
product, check the advisory stock bound, then overwrite the quantity
of the existing line, failing when there is none. -/
def updateCartQuantity (uid pid : ℕ) (qty : ℤ) (s : St) :
    Except CartErr (List CartItem) × St :=
  if qty ≤ 0 then (.error .invalidQuantity, s)
  else
    match s.users uid with
    | none => (.error .userNotFound, s)
    | some user =>
      match s.products pid with
      | none => (.error .productNotFound, s)
      | some product =>
        if product.quantity < qty then
          (.error (.insufficientStock product.quantity), s)
        else if user.cart.any (fun it => it.productId == pid) then
          let cart := setQtyFirst pid qty user.cart
          (.ok cart, setUser s uid { user with cart := cart })
        else (.error .lineNotFound, s)

/-- clearCart: empty the cart list and save. -/
def clearCart (uid : ℕ) (s : St) : Except CartErr (List CartItem) × St :=
  match s.users uid with
  | none => (.error .userNotFound, s)
  | some user => (.ok [], setUser s uid { user with cart := [] })

/-- Math.round on a nonnegative amount: round half up, that is the
floor of the value plus one half. -/
def jsRound (x : ℚ) : ℤ := ⌊x + 1 / 2⌋

/-- Math.round(x * 100) / 100, the two-decimal rounding used for the
order totals. -/
def round2 (x : ℚ) : ℚ := (jsRound (x * 100) : ℚ) / 100

/-- Fuel-driven worker for the decimal digit list, structurally
recursive so that it evaluates inside the kernel; the fuel never runs
out when it starts at least as large as the number. -/
def decDigitsF : ℕ → ℕ → List ℕ
  | _, 0 => []
  | 0, _ + 1 => []
  | f + 1, n + 1 => (n + 1) % 10 :: decDigitsF f ((n + 1) / 10)

/-- Little-endian decimal digits of a natural number; empty for zero. -/
def decDigits (n : ℕ) : List ℕ := decDigitsF n n

/-- Decimal rendering of a natural number, as the JS String conversion
produces it: most significant digit first, no leading zeros, and the
single digit 0 for zero. -/
def natToStr (n : ℕ) : String :=
  if n = 0 then "0" else ⟨(decDigits n).reverse.map Nat.digitChar⟩

/-- padStart(3, "0"): left-pad with the digit zero up to width three. -/
def padStart3 (s : String) : String :=
  ⟨List.replicate (3 - s.data.length) '0' ++ s.data⟩

/-- The order id allocated by checkout for a given value of
orderCount + 1: ORD- followed by the zero padded decimal counter. -/
def mkOrderId (n : ℕ) : String := "ORD-" ++ padStart3 (natToStr n)

/-- Responses of the checkout endpoint. internalError stands for the
500 answer produced by the catch block when a storage call throws,
including the TypeError raised on a null populated product. -/
inductive CkRes where
  | ok (o : Order)
  | userNotFound
  | emptyCart
  | productNotFound (productName : String)
  | insufficientStock (productName : String) (available : ℤ)
  | internalError
deriving DecidableEq, Repr

/-- One populated cart line: the product document snapshot taken when
the cart was read, kept for the commit phase. -/
structure PopItem where
  productId : ℕ
  product : Product
  quantity : ℤ
deriving DecidableEq, Repr

/-- The validation loop of checkout, one pass in stored cart order.
For each line the product is read again and its live quantity compared
with the requested one. Sequentially this read sees the same store the
populate saw, so a line whose product id does not resolve hits the
TypeError on the populated null (internalError); the explicit
ProductNotFound branch of the source can fire only when the product
disappears between the two reads and is unreachable here. -/
def popValidate (ps : ℕ → Option Product) : List CartItem → Except CkRes (List PopItem)
  | [] => .ok []
  | it :: rest =>
    match ps it.productId with
    | none => .error .internalError
    | some p =>
      if p.quantity < it.quantity then
        .error (.insufficientStock p.productName p.quantity)
      else (popValidate ps rest).map fun l => ⟨it.productId, p, it.quantity⟩ :: l

/-- Fault schedule for one checkout call: which storage operations
throw. The source wraps the handler in one try/catch with no
compensation, so a fault stops execution exactly where it occurs and
every earlier write stays. -/
structure Faults where
  countFail : Bool
  orderSaveFail : Bool
  decFail : ℕ → Bool
  clearFail : Bool

/-- The schedule on which every storage operation succeeds. -/
def noFaults : Faults := ⟨false, false, fun _ => false, false⟩

/-- The stock update loop of checkout: for each line, in stored order,
findByIdAndUpdate with inc of minus quantity — unconditional, with no
comparison against the current value. Returns the updated product
table and false when a call threw, leaving earlier decrements applied. -/
def decLoop (flt : Faults) : List CartItem → (ℕ → Option Product) → (ℕ → Option Product) × Bool
  | [], ps => (ps, true)
  | it :: rest, ps =>
    if flt.decFail it.productId then (ps, false)
    else
      decLoop flt rest
        (updateProduct ps it.productId fun p => { p with quantity := p.quantity - it.quantity })

/-- Validation phase of checkout: every step before the first write.
Under concurrent requests another checkout may interleave its own
writes between this phase and the commit phase, because each storage
call is a separate awaited operation. -/
def ckValidate (uid : ℕ) (s : St) : CkRes ⊕ User × List PopItem :=
  match s.users uid with
  | none => .inl .userNotFound
  | some user =>
    if user.cart = [] then .inl .emptyCart
    else
      match popValidate s.products user.cart with
      | .error e => .inl e
      | .ok pop => .inr (user, pop)

/-- Subtotal reduce of checkout: left fold of the item subtotals. -/
def itemsSubtotal (items : List OrderItem) : ℚ :=
  items.foldl (fun sum it => sum + it.subtotal) 0

/-- Build the order items array from the populated snapshot: price and
name by value, line subtotal price times quantity. -/
def mkOrderItems (pop : List PopItem) : List OrderItem :=
  pop.map fun it =>
    ⟨it.productId, it.product.productName, it.product.price, it.quantity,
      it.product.price * it.quantity⟩

/-- The Order document checkout persists: items from the populated
snapshot, subtotal rounded, tax and total computed from the raw
unrounded subtotal, id from the order count of the current state. -/
def mkOrder (uid : ℕ) (user : User) (pop : List PopItem) (s : St) : Order :=
  let items := mkOrderItems pop
  let sub := itemsSubtotal items
  let tax := round2 (sub * (1 / 10))
  let total := round2 (sub + tax)
  let oid := mkOrderId (s.orders.length + 1)
  ⟨uid, oid, items, round2 sub, tax, total, user.address, "pending", "pending"⟩

/-- Commit phase of checkout: order count read, totals, order save,
the unconditional decrement loop, cart clear. No step checks stock
again, and no step undoes earlier writes when a later one fails. -/
def ckCommit (flt : Faults) (uid : ℕ) (user : User) (pop : List PopItem) (s : St) :
    CkRes × St :=
  if flt.countFail then (.internalError, s)
  else
    let order := mkOrder uid user pop s
    if flt.orderSaveFail then (.internalError, s)
    else
      let s1 : St := { s with orders := s.orders ++ [order] }
      match decLoop flt (pop.map fun it => ⟨it.productId, it.quantity⟩) s1.products with
      | (ps, false) => (.internalError, { s1 with products := ps })
      | (ps, true) =>
        let s2 : St := { s1 with products := ps }
        if flt.clearFail then (.internalError, s2)
        else (.ok order, setUser s2 uid { user with cart := [] })

/-- checkout under a fault schedule: validation phase then commit phase. -/
def checkoutF (flt : Faults) (uid : ℕ) (s : St) : CkRes × St :=
  match ckValidate uid s with
  | .inl e => (e, s)
  | .inr (user, pop) => ckCommit flt uid user pop s

/-- checkout on the schedule where every storage call succeeds. -/
def checkout (uid : ℕ) (s : St) : CkRes × St := checkoutF noFaults uid s

/-- getOrders: the orders of one user, a pure read. -/
def getOrders (uid : ℕ) (s : St) : List Order :=
  s.orders.filter fun o => o.userId == uid

/-- Responses of the get-order-by-id endpoint. -/
inductive OrderRes where
  | ok (o : Order)
  | notFound
  | unauthorized
deriving DecidableEq, Repr

/-- getOrderById: the source resolves the storage id; orders are
modelled as addressed by their orderId string, which is unique in any
state the operations here produce. Ownership is checked after the
lookup. -/
def getOrderById (oid : String) (uid : ℕ) (s : St) : OrderRes :=
  match s.orders.find? (fun o => o.orderId == oid) with
  | none => .notFound
  | some o => if o.userId == uid then .ok o else .unauthorized

/-- The state-mutating operations of the public interface. getCart,
getOrders and getOrderById are pure reads and return no state. -/
inductive Op where
  | add (uid pid : ℕ) (qty : ℤ)
  | update (uid pid : ℕ) (qty : ℤ)
  | remove (uid pid : ℕ)
  | clear (uid : ℕ)
  | ck (uid : ℕ)
deriving DecidableEq, Repr

/-- State transition of one operation, discarding the response. -/
def step : Op → St → St
  | .add u p q, s => (addToCart u p q s).2
  | .update u p q, s => (updateCartQuantity u p q s).2
  | .remove u p, s => (removeFromCart u p s).2
  | .clear u, s => (clearCart u s).2
  | .ck u, s => (checkout u s).2

/-- Run a sequence of operations left to right. -/
def runSeq (ops : List Op) (s : St) : St := ops.foldl (fun s o => step o s) s

/-- Cart wellformedness: every line quantity positive and at most one
line per product id. -/
def GoodCart (cart : List CartItem) : Prop :=
  (∀ it ∈ cart, 0 < it.quantity) ∧ (cart.map CartItem.productId).Nodup

/-- State invariant: every stored product quantity nonnegative and
every cart well formed. -/
def Inv (s : St) : Prop :=
  (∀ pid p, s.products pid = some p → 0 ≤ p.quantity) ∧
    ∀ uid u, s.users uid = some u → GoodCart u.cart

/-- Per-product evolution: every stored product survives and its
quantity never grows, so the quantities removed from a product over a
run total its initial stock minus its final stock. -/
def ProdMono (ps qs : ℕ → Option Product) : Prop :=
  ∀ pid p, ps pid = some p → ∃ q, qs pid = some q ∧ q.quantity ≤ p.quantity

/-- Modelled from the claim wording for getCart: the raw sum of price
times quantity over the lines, with no rounding and no tax, prices
resolved through the product table. -/
def rawCartSum (ps : ℕ → Option Product) (l : List CartItem) : ℚ :=
  (l.map fun it =>
    (match ps it.productId with
     | some p => p.price
     | none => 0) * (it.quantity : ℚ)).sum

/-- Value of a little-endian decimal digit list. -/
def fromDecDigits : List ℕ → ℕ
  | [] => 0
  | d :: ds => d + 10 * fromDecDigits ds

/-- Two users each holding a cart line of three units of product 1,
which has five in stock: the stock race scenario of the spec. -/
def stRace : St :=
  { users := fun k =>
      if k = 1 then some ⟨"a1", [⟨1, 3⟩]⟩
      else if k = 2 then some ⟨"a2", [⟨1, 3⟩]⟩ else none,
    products := fun k => if k = 1 then some ⟨"Widget", 1, 5, .active⟩ else none,
    orders := [] }

/-- The user document and populated snapshot both racing checkouts of
stRace read during their validation phase. -/
def raceUserA : User := ⟨"a1", [⟨1, 3⟩]⟩

/-- Snapshot of user 2 in the race scenario. -/
def raceUserB : User := ⟨"a2", [⟨1, 3⟩]⟩

/-- Populated snapshot of the single cart line in the race scenario. -/
def racePop : List PopItem := [⟨1, ⟨"Widget", 1, 5, .active⟩, 3⟩]

/-- Commit of the first racing checkout. -/
def raceA : CkRes × St := ckCommit noFaults 1 raceUserA racePop stRace

/-- Commit of the second racing checkout, interleaved after the first. -/
def raceB : CkRes × St := ckCommit noFaults 2 raceUserB racePop raceA.2

/-- One user holding two units of product 1, which has five in stock. -/
def stFault : St :=
  { users := fun k => if k = 1 then some ⟨"a1", [⟨1, 2⟩]⟩ else none,
    products := fun k => if k = 1 then some ⟨"Widget", 2, 5, .active⟩ else none,
    orders := [] }

/-- Fault schedule on which the findByIdAndUpdate decrement of
product 1 throws. -/
def fltDec : Faults := ⟨false, false, fun p => p == 1, false⟩

/-- The order stFault checkout persists before the decrement throws. -/
def orderFault : Order :=
  ⟨1, "ORD-001", [⟨1, "Widget", 2, 2, 4⟩], 4, 2 / 5, 22 / 5, "a1", "pending", "pending"⟩

/-- Two users each holding one unit of product 1, ten in stock. -/
def stPair : St :=
  { users := fun k =>
      if k = 1 then some ⟨"a1", [⟨1, 1⟩]⟩
      else if k = 2 then some ⟨"a2", [⟨1, 1⟩]⟩ else none,
    products := fun k => if k = 1 then some ⟨"Widget", 2, 10, .active⟩ else none,
    orders := [] }

/-- The order the first checkout of stPair commits. -/
def orderPair1 : Order :=
  ⟨1, "ORD-001", [⟨1, "Widget", 2, 1, 2⟩], 2, 1 / 5, 11 / 5, "a1", "pending", "pending"⟩

/-- The order the second checkout of stPair commits. -/
def orderPair2 : Order :=
  ⟨2, "ORD-002", [⟨1, "Widget", 2, 1, 2⟩], 2, 1 / 5, 11 / 5, "a2", "pending", "pending"⟩

/-- One user with an empty cart and a product with five in stock. -/
def stFresh : St :=
  { users := fun k => if k = 1 then some ⟨"a1", []⟩ else none,
    products := fun k => if k = 1 then some ⟨"Widget", 2, 5, .active⟩ else none,
    orders := [] }

/-- One user holding one unit of a product priced 5.005. -/
def stHalfCent : St :=
  { users := fun k => if k = 1 then some ⟨"a1", [⟨1, 1⟩]⟩ else none,
    products := fun k => if k = 1 then some ⟨"Widget", 1001 / 200, 10, .active⟩ else none,
    orders := [] }

/-- The order checkout commits for stHalfCent: subtotal rounded to
5.01 and total 5.51, both different from the raw cart total 5.005. -/
def orderHalfCent : Order :=
  ⟨1, "ORD-001", [⟨1, "Widget", 1001 / 200, 1, 1001 / 200⟩], 501 / 100, 1 / 2, 551 / 100,
    "a1", "pending", "pending"⟩

/-- A user holding one unit of a discontinued product, next to an
inactive product with stock; neither is active. -/
def stNonActive : St :=
  { users := fun k => if k = 1 then some ⟨"a1", [⟨3, 1⟩]⟩ else none,
    products := fun k =>
      if k = 2 then some ⟨"Sleeper", 3, 10, .inactive⟩
      else if k = 3 then some ⟨"Relic", 1, 4, .discontinued⟩ else none,
    orders := [] }

/-- The order committed over the inactive and discontinued products. -/
def orderNonActive : Order :=
  ⟨1, "ORD-001", [⟨3, "Relic", 1, 1, 1⟩, ⟨2, "Sleeper", 3, 2, 6⟩], 7, 7 / 10, 77 / 10,
    "a1", "pending", "pending"⟩

/-- One user holding one unit of a product priced 35.046. -/
def stTaxGap : St :=
  { users := fun k => if k = 1 then some ⟨"a1", [⟨1, 1⟩]⟩ else none,
    products := fun k => if k = 1 then some ⟨"Widget", 35046 / 1000, 10, .active⟩ else none,
    orders := [] }

/-- The order checkout commits for stTaxGap: subtotal 35.05 stored
rounded, but tax 3.50 computed from the raw 35.046, not from 35.05. -/
def orderTaxGap : Order :=
  ⟨1, "ORD-001", [⟨1, "Widget", 17523 / 500, 1, 17523 / 500⟩], 701 / 20, 7 / 2, 771 / 20,
    "a1", "pending", "pending"⟩

/-- The spec example cart: two units at 10.00 and three at 5.005. -/
def stSpecItems : St :=
  { users := fun k => if k = 1 then some ⟨"a1", [⟨1, 2⟩, ⟨2, 3⟩]⟩ else none,
    products := fun k =>
      if k = 1 then some ⟨"Widget", 10, 10, .active⟩
      else if k = 2 then some ⟨"Gadget", 1001 / 200, 10, .active⟩ else none,
    orders := [] }

/-- The order committed for the spec example cart: subtotal 35.02,
tax 3.50, total 38.52. -/
def orderSpecItems : Order :=
  ⟨1, "ORD-001",
    [⟨1, "Widget", 10, 2, 20⟩, ⟨2, "Gadget", 1001 / 200, 3, 3003 / 200⟩],
    1751 / 50, 7 / 2, 963 / 25, "a1", "pending", "pending"⟩

/-- The digit worker ignores the exact fuel once it suffices. -/
theorem decDigitsF_congr :
    ∀ f g n, n ≤ f → n ≤ g → decDigitsF f n = decDigitsF g n := by
  intro f
  induction f with
  | zero =>
    intro g n hf _
    cases Nat.le_zero.mp hf
    cases g <;> rfl
  | succ f ih =>
    intro g n hf hg
    cases n with
    | zero => cases g <;> rfl
    | succ m =>
      cases g with
      | zero => omega
      | succ g2 =>
        have hdiv : (m + 1) / 10 < m + 1 := Nat.div_lt_self (Nat.succ_pos m) (by omega)
        simp only [decDigitsF]
        congr 1
        exact ih g2 ((m + 1) / 10) (by omega) (by omega)

/-- Unfolding equation of decDigits on a positive number. -/
theorem decDigits_succ (n : ℕ) :
    decDigits (n + 1) = (n + 1) % 10 :: decDigits ((n + 1) / 10) := by
  have hdiv : (n + 1) / 10 < n + 1 := Nat.div_lt_self (Nat.succ_pos n) (by omega)
  show decDigitsF (n + 1) (n + 1) = _
  simp only [decDigitsF]
  congr 1
  exact decDigitsF_congr n ((n + 1) / 10) ((n + 1) / 10) (by omega) (le_refl _)

/-- The digit list determines the number. -/
theorem fromDecDigits_decDigits (n : ℕ) : fromDecDigits (decDigits n) = n := by
  induction n using Nat.strong_induction_on with
  | _ n ih =>
    match n with
    | 0 => rfl
    | m + 1 =>
      have hdiv : (m + 1) / 10 < m + 1 := Nat.div_lt_self (Nat.succ_pos m) (by omega)
      rw [decDigits_succ, fromDecDigits, ih ((m + 1) / 10) hdiv]
      exact Nat.mod_add_div (m + 1) 10

/-- Decimal digit lists are uniquely readable. -/
theorem decDigits_inj {m n : ℕ} (h : decDigits m = decDigits n) : m = n := by
  rw [← fromDecDigits_decDigits m, h, fromDecDigits_decDigits]

/-- Every produced digit is below ten. -/
theorem decDigits_lt_ten (n : ℕ) : ∀ d ∈ decDigits n, d < 10 := by
  induction n using Nat.strong_induction_on with
  | _ n ih =>
    match n with
    | 0 => intro d hd; cases hd
    | m + 1 =>
      have hdiv : (m + 1) / 10 < m + 1 := Nat.div_lt_self (Nat.succ_pos m) (by omega)
      rw [decDigits_succ]
      intro d hd
      rcases List.mem_cons.mp hd with h1 | h2
      · subst h1; exact Nat.mod_lt _ (by omega)
      · exact ih ((m + 1) / 10) hdiv d h2

/-- The most significant digit of a positive number is nonzero. -/
theorem decDigits_getLast_ne_zero (n : ℕ) (h : n ≠ 0) :
    ∃ d, (decDigits n).getLast? = some d ∧ d ≠ 0 ∧ d < 10 := by
  induction n using Nat.strong_induction_on with
  | _ n ih =>
    match n with
    | 0 => exact absurd rfl h
    | m + 1 =>
      have hdiv : (m + 1) / 10 < m + 1 := Nat.div_lt_self (Nat.succ_pos m) (by omega)
      rw [decDigits_succ]
      by_cases hq : (m + 1) / 10 = 0
      · have hlt : m + 1 < 10 := by
          rcases Nat.lt_or_ge (m + 1) 10 with h1 | h1
          · exact h1
          · exact absurd hq (by have := Nat.div_le_div_right (c := 10) h1; omega)
        rw [hq]
        refine ⟨(m + 1) % 10, rfl, ?_, Nat.mod_lt _ (by omega)⟩
        rw [Nat.mod_eq_of_lt hlt]
        omega
      · obtain ⟨d, hd, h0, h10⟩ := ih ((m + 1) / 10) hdiv hq
        cases hE : decDigits ((m + 1) / 10) with
        | nil => rw [hE] at hd; cases hd
        | cons b t =>
          rw [hE] at hd
          rw [List.getLast?_cons_cons]
          exact ⟨d, hd, h0, h10⟩

/-- Digit characters below ten are pairwise distinct. -/
theorem digitChar_inj :
    ∀ a, a < 10 → ∀ b, b < 10 → Nat.digitChar a = Nat.digitChar b → a = b := by decide

/-- A nonzero digit never renders as the character zero. -/
theorem digitChar_ne_zero : ∀ d, d < 10 → d ≠ 0 → Nat.digitChar d ≠ '0' := by decide

/-- Rendering digit lists to characters is injective below ten. -/
theorem map_digitChar_inj :
    ∀ l1 l2 : List ℕ, (∀ d ∈ l1, d < 10) → (∀ d ∈ l2, d < 10) →
      l1.map Nat.digitChar = l2.map Nat.digitChar → l1 = l2 := by
  intro l1
  induction l1 with
  | nil => intro l2 _ _ h; cases l2 with
    | nil => rfl
    | cons b t => simp at h
  | cons a t1 ih =>
    intro l2 hb1 hb2 h
    cases l2 with
    | nil => simp at h
    | cons b t2 =>
      simp only [List.map_cons, List.cons.injEq] at h
      have ha : a = b :=
        digitChar_inj a (hb1 a (List.mem_cons_self a t1)) b
          (hb2 b (List.mem_cons_self b t2)) h.1
      have ht : t1 = t2 :=
        ih t2 (fun d hd => hb1 d (List.mem_cons_of_mem a hd))
          (fun d hd => hb2 d (List.mem_cons_of_mem b hd)) h.2
      rw [ha, ht]

/-- Strings with the same character data are the same string. -/
theorem stringDataEq {s t : String} (h : s.data = t.data) : s = t := by
  cases s
  cases t
  exact congrArg String.mk h

/-- The decimal rendering is never the empty string. -/
theorem natToStr_data_ne_nil (n : ℕ) : (natToStr n).data ≠ [] := by
  unfold natToStr
  split
  · simp
  · rename_i hn
    match n, hn with
    | m + 1, _ =>
      rw [decDigits_succ]
      simp

/-- The decimal rendering is the digit zero or starts with a nonzero
digit character. -/
theorem natToStr_head_cases (n : ℕ) :
    natToStr n = "0" ∨
      ∃ d, d < 10 ∧ d ≠ 0 ∧ (natToStr n).data.head? = some (Nat.digitChar d) := by
  by_cases hn : n = 0
  · left; rw [hn]; rfl
  · right
    obtain ⟨d, hd, h0, h10⟩ := decDigits_getLast_ne_zero n hn
    refine ⟨d, h10, h0, ?_⟩
    have hdata : (natToStr n).data = (decDigits n).reverse.map Nat.digitChar := by
      unfold natToStr
      rw [if_neg hn]
    rw [hdata, List.head?_map, List.head?_reverse, hd]
    rfl

/-- A positive number never renders as the single digit zero. -/
theorem natToStr_data_ne_single_zero (k : ℕ) (hk : k ≠ 0) :
    (natToStr k).data ≠ ['0'] := by
  intro hdata
  have hk2 : (natToStr k).data = (decDigits k).reverse.map Nat.digitChar := by
    unfold natToStr
    rw [if_neg hk]
  rw [hk2] at hdata
  cases hrev : (decDigits k).reverse with
  | nil => rw [hrev] at hdata; simp at hdata
  | cons d t =>
    rw [hrev] at hdata
    simp only [List.map_cons, List.cons.injEq, List.map_eq_nil_iff] at hdata
    have hdmem : d ∈ decDigits k := by
      have hmem : d ∈ (decDigits k).reverse := by
        rw [hrev]; exact List.mem_cons_self d t
      exact List.mem_reverse.mp hmem
    have hd10 : d < 10 := decDigits_lt_ten k d hdmem
    have hd0 : d = 0 := digitChar_inj d hd10 0 (by omega) hdata.1
    have hdd : decDigits k = [0] := by
      have hr : (decDigits k).reverse = [0] := by rw [hrev, hd0, hdata.2]
      have hrr := congrArg List.reverse hr
      rw [List.reverse_reverse] at hrr
      exact hrr
    have hval := fromDecDigits_decDigits k
    rw [hdd] at hval
    simp [fromDecDigits] at hval
    exact hk hval.symm

/-- Decimal renderings are uniquely readable. -/
theorem natToStr_data_inj {m n : ℕ} (h : (natToStr m).data = (natToStr n).data) :
    m = n := by
  by_cases hm : m = 0 <;> by_cases hn : n = 0
  · rw [hm, hn]
  · exfalso
    rw [hm] at h
    exact natToStr_data_ne_single_zero n hn h.symm
  · exfalso
    rw [hn] at h
    exact natToStr_data_ne_single_zero m hm h
  · have hm2 : (natToStr m).data = (decDigits m).reverse.map Nat.digitChar := by
      unfold natToStr; rw [if_neg hm]
    have hn2 : (natToStr n).data = (decDigits n).reverse.map Nat.digitChar := by
      unfold natToStr; rw [if_neg hn]
    rw [hm2, hn2] at h
    have hrev : (decDigits m).reverse = (decDigits n).reverse :=
      map_digitChar_inj _ _
        (fun d hd => decDigits_lt_ten m d (List.mem_reverse.mp hd))
        (fun d hd => decDigits_lt_ten n d (List.mem_reverse.mp hd)) h
    have hdd := congrArg List.reverse hrev
    rw [List.reverse_reverse, List.reverse_reverse] at hdd
    exact decDigits_inj hdd

/-- Left padding cannot equal an unpadded no-leading-zero rendering. -/
theorem padNoLead (k : ℕ) (l1 l2 : List Char) (hk : k ≠ 0)
    (z1 : l1.head? ≠ some '0' ∨ l1 = ['0']) (h2 : l2 ≠ [])
    (h : l1 = List.replicate k '0' ++ l2) : False := by
  match k, hk with
  | j + 1, _ =>
    rw [List.replicate_succ] at h
    have hhead : l1.head? = some '0' := by rw [h]; rfl
    rcases z1 with hz | hz
    · exact hz hhead
    · rw [hz] at h
      have := h.symm
      simp only [List.cons_append, List.cons.injEq] at this
      exact h2 (List.append_eq_nil.mp this.2).2

/-- Zero padding to width three is injective on nonempty renderings
without leading zeros. -/
theorem padListInj (l1 l2 : List Char)
    (h1 : l1 ≠ []) (h2 : l2 ≠ [])
    (z1 : l1.head? ≠ some '0' ∨ l1 = ['0'])
    (z2 : l2.head? ≠ some '0' ∨ l2 = ['0'])
    (h : List.replicate (3 - l1.length) '0' ++ l1 =
      List.replicate (3 - l2.length) '0' ++ l2) :
    l1 = l2 := by
  rcases Nat.lt_trichotomy (3 - l1.length) (3 - l2.length) with hab | hab | hab
  · exfalso
    have hsplit : List.replicate (3 - l2.length) '0' =
        List.replicate (3 - l1.length) '0' ++
          List.replicate (3 - l2.length - (3 - l1.length)) '0' := by
      rw [← List.replicate_add]
      congr 1
      omega
    rw [hsplit, List.append_assoc] at h
    have hl1 := List.append_cancel_left h
    exact padNoLead _ l1 l2 (by omega) z1 h2 hl1
  · rw [hab] at h
    exact List.append_cancel_left h
  · exfalso
    have hsplit : List.replicate (3 - l1.length) '0' =
        List.replicate (3 - l2.length) '0' ++
          List.replicate (3 - l1.length - (3 - l2.length)) '0' := by
      rw [← List.replicate_add]
      congr 1
      omega
    rw [hsplit, List.append_assoc] at h
    have hl2 := (List.append_cancel_left h).symm
    exact padNoLead _ l2 l1 (by omega) z2 h1 hl2

/-- The order id determines the allocated counter: the sequencer never
produces the same identifier for two different counters. -/
theorem mkOrderId_inj {m n : ℕ} (h : mkOrderId m = mkOrderId n) : m = n := by
  have happ : ∀ k : ℕ, (mkOrderId k).data =
      "ORD-".data ++
        (List.replicate (3 - (natToStr k).data.length) '0' ++ (natToStr k).data) := by
    intro k; rfl
  have hdata := congrArg String.data h
  rw [happ, happ] at hdata
  have hpad := List.append_cancel_left hdata
  have hz : ∀ k : ℕ, (natToStr k).data.head? ≠ some '0' ∨ (natToStr k).data = ['0'] := by
    intro k
    rcases natToStr_head_cases k with hc | ⟨d, h10, h0, hc⟩
    · right; rw [hc]
    · left
      rw [hc]
      intro hcontra
      exact digitChar_ne_zero d h10 h0 (Option.some.injEq _ _ ▸ hcontra)
  have hdd : (natToStr m).data = (natToStr n).data :=
    padListInj _ _ (natToStr_data_ne_nil m) (natToStr_data_ne_nil n) (hz m) (hz n) hpad
  exact natToStr_data_inj hdd

/-- A successful validation pass returns the cart itself decorated
with product snapshots, each read from the current table and each
covering the requested quantity. -/
theorem popValidate_ok (ps : ℕ → Option Product) :
    ∀ l pop, popValidate ps l = .ok pop →
      pop.map (fun it => (⟨it.productId, it.quantity⟩ : CartItem)) = l ∧
      ∀ it ∈ pop, ps it.productId = some it.product ∧
        it.quantity ≤ it.product.quantity := by
  intro l
  induction l with
  | nil =>
    intro pop h
    simp only [popValidate] at h
    injection h with h2
    rw [← h2]
    exact ⟨rfl, fun it hit => absurd hit (List.not_mem_nil it)⟩
  | cons it rest ih =>
    intro pop h
    simp only [popValidate] at h
    split at h
    · cases h
    · rename_i p hp
      split at h
      · cases h
      · rename_i hlt
        cases hr : popValidate ps rest with
        | error e => rw [hr] at h; simp only [Except.map] at h; cases h
        | ok l2 =>
          rw [hr] at h
          simp only [Except.map] at h
          injection h with h2
          obtain ⟨hmap, hmem⟩ := ih l2 hr
          rw [← h2]
          constructor
          · simp only [List.map_cons, hmap]
          · intro pit hpit
            rcases List.mem_cons.mp hpit with rfl | hm
            · exact ⟨hp, le_of_not_lt hlt⟩
            · exact hmem pit hm

/-- A failed validation pass never reports a committed order. -/
theorem popValidate_error_ne_ok (ps : ℕ → Option Product) :
    ∀ l e, popValidate ps l = .error e → ∀ o : Order, e ≠ .ok o := by
  intro l
  induction l with
  | nil => intro e h; cases h
  | cons it rest ih =>
    intro e h
    simp only [popValidate] at h
    split at h
    · injection h with h2
      rw [← h2]
      intro o hc
      cases hc
    · split at h
      · injection h with h2
        rw [← h2]
        intro o hc
        cases hc
      · cases hr : popValidate ps rest with
        | error e2 =>
          rw [hr] at h
          simp only [Except.map] at h
          injection h with h2
          rw [← h2]
          exact ih e2 hr
        | ok l2 => rw [hr] at h; simp only [Except.map] at h; cases h

/-- What a validation phase answering inr establishes. -/
theorem ckValidate_inr {uid : ℕ} {s : St} {user : User} {pop : List PopItem}
    (h : ckValidate uid s = .inr (user, pop)) :
    s.users uid = some user ∧ user.cart ≠ [] ∧
      popValidate s.products user.cart = .ok pop := by
  unfold ckValidate at h
  split at h
  · cases h
  · rename_i u hu
    split at h
    · cases h
    · rename_i hc
      split at h
      · cases h
      · rename_i pop2 hv
        injection h with h2
        have h3 : u = user := congrArg Prod.fst h2
        have h4 : pop2 = pop := congrArg Prod.snd h2
        subst h3
        subst h4
        exact ⟨hu, hc, hv⟩

/-- A validation failure is one of the error responses, never ok. -/
theorem ckValidate_inl_ne_ok {uid : ℕ} {s : St} {e : CkRes}
    (h : ckValidate uid s = .inl e) : ∀ o : Order, e ≠ .ok o := by
  unfold ckValidate at h
  split at h
  · injection h with h2
    rw [← h2]
    intro o hc
    cases hc
  · rename_i u hu
    split at h
    · injection h with h2
      rw [← h2]
      intro o hcc
      cases hcc
    · split at h
      · rename_i e2 hv
        injection h with h2
        rw [← h2]
        exact popValidate_error_ne_ok s.products u.cart e2 hv
      · cases h

/-- On the all-good schedule the decrement loop always completes. -/
theorem decLoop_noFaults_eq :
    ∀ (l : List CartItem) (ps : ℕ → Option Product),
      decLoop noFaults l ps = ((decLoop noFaults l ps).1, true) := by
  intro l
  induction l with
  | nil => intro ps; rfl
  | cons it rest ih =>
    intro ps
    simp only [decLoop, noFaults]
    exact ih _

/-- Products outside the decremented lines are untouched. -/
theorem decLoop_fst_not_mem (flt : Faults) :
    ∀ (l : List CartItem) (ps : ℕ → Option Product) (pid : ℕ),
      pid ∉ l.map CartItem.productId → (decLoop flt l ps).1 pid = ps pid := by
  intro l
  induction l with
  | nil => intro ps pid _; rfl
  | cons it rest ih =>
    intro ps pid h
    simp only [List.map_cons, List.mem_cons, not_or] at h
    obtain ⟨h1, h2⟩ := h
    simp only [decLoop]
    cases hf : flt.decFail it.productId with
    | true => simp
    | false =>
      simp only [Bool.false_eq_true, if_false]
      rw [ih _ pid h2]
      unfold updateProduct
      rw [if_neg h1]

/-- Each line of a duplicate-free cart is decremented exactly once, by
its own quantity, unconditionally. -/
theorem decLoop_noFaults_fst_mem :
    ∀ (l : List CartItem) (ps : ℕ → Option Product),
      (l.map CartItem.productId).Nodup → ∀ it ∈ l,
        (decLoop noFaults l ps).1 it.productId =
          (ps it.productId).map
            fun p => { p with quantity := p.quantity - it.quantity } := by
  intro l
  induction l with
  | nil => intro ps _ it hit; cases hit
  | cons a rest ih =>
    intro ps hn it hit
    simp only [List.map_cons, List.nodup_cons] at hn
    obtain ⟨hna, hnr⟩ := hn
    have hf : noFaults.decFail a.productId = false := rfl
    simp only [decLoop, hf, Bool.false_eq_true, if_false]
    rcases List.mem_cons.mp hit with rfl | hmem
    · rw [decLoop_fst_not_mem _ _ _ _ hna]
      unfold updateProduct
      rw [if_pos rfl]
    · have hne : it.productId ≠ a.productId := by
        intro he
        exact hna (he ▸ List.mem_map_of_mem CartItem.productId hmem)
      rw [ih _ hnr it hmem]
      unfold updateProduct
      rw [if_neg hne]

/-- A checkout whose validation phase fails returns that failure and
leaves the state untouched. -/
theorem checkout_inl_state {uid : ℕ} {s : St} {e : CkRes}
    (h : ckValidate uid s = .inl e) : checkout uid s = (e, s) := by
  unfold checkout checkoutF
  rw [h]

/-- A checkout whose validation phase succeeds commits the order built
from the snapshot, decrements every line unconditionally and clears
the cart. -/
theorem checkout_inr_state {uid : ℕ} {s : St} {user : User} {pop : List PopItem}
    (h : ckValidate uid s = .inr (user, pop)) :
    checkout uid s =
      (.ok (mkOrder uid user pop s),
        setUser
          { s with
            orders := s.orders ++ [mkOrder uid user pop s],
            products :=
              (decLoop noFaults (pop.map fun it => ⟨it.productId, it.quantity⟩)
                s.products).1 }
          uid { user with cart := [] }) := by
  unfold checkout checkoutF
  rw [h]
  unfold ckCommit
  have hc : noFaults.countFail = false := rfl
  have ho : noFaults.orderSaveFail = false := rfl
  have hcl : noFaults.clearFail = false := rfl
  simp only [hc, ho, hcl, Bool.false_eq_true, if_false]
  rw [decLoop_noFaults_eq]

/-- What a checkout that reports ok establishes: the id reflects the
order count at allocation time and exactly that order is appended. -/
theorem checkout_ok_facts {uid : ℕ} {s : St} {o : Order}
    (h : (checkout uid s).1 = .ok o) :
    o.orderId = mkOrderId (s.orders.length + 1) ∧
      (checkout uid s).2.orders = s.orders ++ [o] := by
  cases hv : ckValidate uid s with
  | inl e =>
    exfalso
    rw [checkout_inl_state hv] at h
    exact ckValidate_inl_ne_ok hv o h
  | inr up =>
    obtain ⟨user, pop⟩ := up
    have hs := checkout_inr_state hv
    rw [hs] at h
    rw [hs]
    have h2 : CkRes.ok (mkOrder uid user pop s) = CkRes.ok o := h
    injection h2 with h3
    subst h3
    exact ⟨rfl, rfl⟩

/-- Cart ops write only the user table: the product table and the
order list are returned unchanged by addToCart. -/
theorem addToCart_frame (uid pid : ℕ) (q : ℤ) (s : St) :
    (addToCart uid pid q s).2.products = s.products ∧
      (addToCart uid pid q s).2.orders = s.orders := by
  refine ⟨?_, ?_⟩ <;>
    (simp only [addToCart, setUser]; (repeat' split) <;> rfl)

/-- updateCartQuantity writes only the user table. -/
theorem updateCartQuantity_frame (uid pid : ℕ) (q : ℤ) (s : St) :
    (updateCartQuantity uid pid q s).2.products = s.products ∧
      (updateCartQuantity uid pid q s).2.orders = s.orders := by
  refine ⟨?_, ?_⟩ <;>
    (simp only [updateCartQuantity, setUser]; (repeat' split) <;> rfl)

/-- removeFromCart writes only the user table. -/
theorem removeFromCart_frame (uid pid : ℕ) (s : St) :
    (removeFromCart uid pid s).2.products = s.products ∧
      (removeFromCart uid pid s).2.orders = s.orders := by
  refine ⟨?_, ?_⟩ <;>
    (simp only [removeFromCart, setUser]; (repeat' split) <;> rfl)

/-- clearCart writes only the user table. -/
theorem clearCart_frame (uid : ℕ) (s : St) :
    (clearCart uid s).2.products = s.products ∧
      (clearCart uid s).2.orders = s.orders := by
  refine ⟨?_, ?_⟩ <;>
    (simp only [clearCart, setUser]; (repeat' split) <;> rfl)

/-- Product evolution is reflexive. -/
theorem prodMono_refl (ps : ℕ → Option Product) : ProdMono ps ps :=
  fun _ p h => ⟨p, h, le_refl _⟩

/-- Product evolution composes. -/
theorem prodMono_trans {a b c : ℕ → Option Product}
    (h1 : ProdMono a b) (h2 : ProdMono b c) : ProdMono a c := by
  intro pid p h
  obtain ⟨q, hq, hle⟩ := h1 pid p h
  obtain ⟨r, hr, hle2⟩ := h2 pid q hq
  exact ⟨r, hr, le_trans hle2 hle⟩

/-- Merging a quantity into a line does not change which products the
cart references. -/
theorem setQtyFirst_map_productId (pid : ℕ) (q : ℤ) :
    ∀ l : List CartItem,
      (setQtyFirst pid q l).map CartItem.productId = l.map CartItem.productId := by
  intro l
  induction l with
  | nil => rfl
  | cons it rest ih =>
    simp only [setQtyFirst]
    by_cases h : it.productId = pid
    · rw [if_pos h]
      simp only [List.map_cons]
    · rw [if_neg h]
      simp only [List.map_cons, ih]

/-- Every line after a merge carries the merged quantity or is an old
line. -/
theorem mem_setQtyFirst (pid : ℕ) (q : ℤ) :
    ∀ l it2, it2 ∈ setQtyFirst pid q l → it2.quantity = q ∨ it2 ∈ l := by
  intro l
  induction l with
  | nil => intro it2 h; cases h
  | cons it rest ih =>
    intro it2 h
    simp only [setQtyFirst] at h
    by_cases he : it.productId = pid
    · rw [if_pos he] at h
      rcases List.mem_cons.mp h with rfl | hm
      · left; rfl
      · right; exact List.mem_cons_of_mem it hm
    · rw [if_neg he] at h
      rcases List.mem_cons.mp h with rfl | hm
      · right; exact List.mem_cons_self _ _
      · rcases ih it2 hm with hq | hmm
        · left; exact hq
        · right; exact List.mem_cons_of_mem it hmm

/-- After the merge, the first line for the product carries exactly
the merged quantity. -/
theorem setQtyFirst_find (pid : ℕ) (v : ℤ) :
    ∀ l it, l.find? (fun x => x.productId == pid) = some it →
      (setQtyFirst pid v l).find? (fun x => x.productId == pid) = some ⟨pid, v⟩ := by
  intro l
  induction l with
  | nil => intro it h; cases h
  | cons a rest ih =>
    intro it h
    cases hE : (a.productId == pid) with
    | true =>
      have hpe : a.productId = pid := by simpa using hE
      simp only [setQtyFirst, if_pos hpe]
      rw [List.find?_cons_of_pos _ (by simpa using hpe)]
      rw [show ({ a with quantity := v } : CartItem) = ⟨pid, v⟩ by rw [← hpe]]
    | false =>
      have hne : ¬a.productId = pid := by simpa using hE
      rw [List.find?_cons_of_neg _ (by simpa using hne)] at h
      simp only [setQtyFirst, if_neg hne]
      rw [List.find?_cons_of_neg _ (by simpa using hne)]
      exact ih it h

/-- The empty cart is well formed. -/
theorem goodCart_nil : GoodCart [] :=
  ⟨fun it h => absurd h (List.not_mem_nil it), List.nodup_nil⟩

/-- Merging a positive quantity preserves cart wellformedness. -/
theorem goodCart_setQty {l : List CartItem} {pid : ℕ} {q : ℤ}
    (h : GoodCart l) (hq : 0 < q) : GoodCart (setQtyFirst pid q l) := by
  obtain ⟨hpos, hnd⟩ := h
  constructor
  · intro it2 hm
    rcases mem_setQtyFirst pid q l it2 hm with he | hmem
    · rw [he]; exact hq
    · exact hpos it2 hmem
  · rw [setQtyFirst_map_productId]
    exact hnd

/-- Removing lines preserves cart wellformedness. -/
theorem goodCart_filter {l : List CartItem} (p : CartItem → Bool)
    (h : GoodCart l) : GoodCart (l.filter p) := by
  obtain ⟨hpos, hnd⟩ := h
  constructor
  · intro it hm
    exact hpos it (List.mem_of_mem_filter hm)
  · exact List.Nodup.sublist (List.Sublist.map _ (List.filter_sublist _)) hnd

/-- Appending a fresh positive line preserves cart wellformedness. -/
theorem goodCart_append {l : List CartItem} {pid : ℕ} {q : ℤ}
    (h : GoodCart l) (hq : 0 < q)
    (hnot : pid ∉ l.map CartItem.productId) : GoodCart (l ++ [⟨pid, q⟩]) := by
  obtain ⟨hpos, hnd⟩ := h
  constructor
  · intro it hm
    rcases List.mem_append.mp hm with hm1 | hm2
    · exact hpos it hm1
    · rw [List.mem_singleton.mp hm2]
      exact hq
  · rw [List.map_append]
    refine List.Nodup.append hnd (List.nodup_singleton pid) ?_
    intro a ha hb
    rw [List.mem_singleton.mp hb] at ha
    exact hnot ha

/-- A cart whose find? comes back empty has no line for the product. -/
theorem not_mem_of_find?_none {l : List CartItem} {pid : ℕ}
    (h : l.find? (fun it => it.productId == pid) = none) :
    pid ∉ l.map CartItem.productId := by
  intro hmem
  obtain ⟨it, hit, hpe⟩ := List.mem_map.mp hmem
  have hnp := List.find?_eq_none.mp h it hit
  exact hnp (by simpa using hpe)

/-- Saving a well formed cart preserves the invariant. -/
theorem inv_setUser {s : St} {uid : ℕ} {u : User}
    (h : Inv s) (hg : GoodCart u.cart) : Inv (setUser s uid u) := by
  obtain ⟨hp, hu⟩ := h
  refine ⟨hp, ?_⟩
  intro uid2 u2 h2
  simp only [setUser] at h2
  by_cases he : uid2 = uid
  · rw [if_pos he] at h2
    injection h2 with h3
    rw [← h3]
    exact hg
  · rw [if_neg he] at h2
    exact hu uid2 u2 h2

/-- addToCart preserves the invariant. -/
theorem inv_addToCart (uid pid : ℕ) (q : ℤ) {s : St} (h : Inv s) :
    Inv (addToCart uid pid q s).2 := by
  simp only [addToCart]
  repeat' split
  all_goals try exact h
  · rename_i hq0 ou user hu op prod hp hlt oi existing hfind hlt2
    apply inv_setUser h
    have hg := h.2 uid user hu
    have hpos := hg.1 existing (List.mem_of_find?_eq_some hfind)
    exact goodCart_setQty hg (by omega)
  · rename_i hq0 ou user hu op prod hp hlt oi hfind
    apply inv_setUser h
    have hg := h.2 uid user hu
    exact goodCart_append hg (by omega) (not_mem_of_find?_none hfind)

/-- updateCartQuantity preserves the invariant. -/
theorem inv_updateCartQuantity (uid pid : ℕ) (q : ℤ) {s : St} (h : Inv s) :
    Inv (updateCartQuantity uid pid q s).2 := by
  simp only [updateCartQuantity]
  repeat' split
  all_goals try exact h
  rename_i hq0 ou user hu op prod hp hlt hany
  apply inv_setUser h
  exact goodCart_setQty (h.2 uid user hu) (by omega)

/-- removeFromCart preserves the invariant. -/
theorem inv_removeFromCart (uid pid : ℕ) {s : St} (h : Inv s) :
    Inv (removeFromCart uid pid s).2 := by
  simp only [removeFromCart]
  repeat' split
  all_goals try exact h
  rename_i ou user hu
  exact inv_setUser h (goodCart_filter _ (h.2 uid user hu))

/-- clearCart preserves the invariant. -/
theorem inv_clearCart (uid : ℕ) {s : St} (h : Inv s) :
    Inv (clearCart uid s).2 := by
  simp only [clearCart]
  repeat' split
  all_goals try exact h
  exact inv_setUser h goodCart_nil

/-- checkout preserves the invariant, and each product either keeps
its stock or is net-decremented, never incremented: the validation
pass guarantees every applied decrement lands at or above zero. -/
theorem checkout_inv_mono (uid : ℕ) {s : St} (h : Inv s) :
    Inv (checkout uid s).2 ∧ ProdMono s.products (checkout uid s).2.products := by
  cases hv : ckValidate uid s with
  | inl e =>
    rw [checkout_inl_state hv]
    exact ⟨h, prodMono_refl _⟩
  | inr up =>
    obtain ⟨user, pop⟩ := up
    rw [checkout_inr_state hv]
    obtain ⟨hu, _, hpv⟩ := ckValidate_inr hv
    obtain ⟨hmap, hmem⟩ := popValidate_ok s.products user.cart pop hpv
    obtain ⟨hgpos, hgnd⟩ := h.2 uid user hu
    have hnd :
        ((pop.map fun it => (⟨it.productId, it.quantity⟩ : CartItem)).map
          CartItem.productId).Nodup := by
      rw [hmap]; exact hgnd
    have key :
        ∀ pid p,
          (decLoop noFaults (pop.map fun it => (⟨it.productId, it.quantity⟩ : CartItem))
              s.products).1 pid = some p →
            0 ≤ p.quantity ∧
              ∃ p0, s.products pid = some p0 ∧ p.quantity ≤ p0.quantity := by
      intro pid p hp2
      by_cases hin :
          pid ∈ (pop.map fun it => (⟨it.productId, it.quantity⟩ : CartItem)).map
            CartItem.productId
      · obtain ⟨it, hit, hpe⟩ := List.mem_map.mp hin
        obtain ⟨pit, hpit, hpeq⟩ := List.mem_map.mp hit
        have h1 : it.productId = pit.productId := by rw [← hpeq]
        have h2 : it.quantity = pit.quantity := by rw [← hpeq]
        rw [← hpe] at hp2
        rw [decLoop_noFaults_fst_mem _ _ hnd it hit] at hp2
        obtain ⟨hsp, hle⟩ := hmem pit hpit
        rw [h1, h2, hsp] at hp2
        rw [Option.map_some'] at hp2
        injection hp2 with hp3
        have hq : 0 < it.quantity := by
          have hmm : it ∈ user.cart := by rw [← hmap]; exact hit
          exact hgpos it hmm
        constructor
        · rw [← hp3]
          simp only
          omega
        · refine ⟨pit.product, by rw [← hpe, h1]; exact hsp, ?_⟩
          rw [← hp3]
          simp only
          omega
      · rw [decLoop_fst_not_mem _ _ _ _ hin] at hp2
        exact ⟨h.1 pid p hp2, ⟨p, hp2, le_refl _⟩⟩
    constructor
    · constructor
      · intro pid p hp2
        exact (key pid p hp2).1
      · intro uid2 u2 hu2
        simp only [setUser] at hu2
        by_cases he : uid2 = uid
        · rw [if_pos he] at hu2
          injection hu2 with h3
          rw [← h3]
          exact goodCart_nil
        · rw [if_neg he] at hu2
          exact h.2 uid2 u2 hu2
    · intro pid p0 hp0
      cases hq : (decLoop noFaults
          (pop.map fun it => (⟨it.productId, it.quantity⟩ : CartItem))
          s.products).1 pid with
      | none =>
        exfalso
        by_cases hin :
            pid ∈ (pop.map fun it => (⟨it.productId, it.quantity⟩ : CartItem)).map
              CartItem.productId
        · obtain ⟨it, hit, hpe⟩ := List.mem_map.mp hin
          rw [← hpe, decLoop_noFaults_fst_mem _ _ hnd it hit] at hq
          rw [hpe, hp0] at hq
          rw [Option.map_some'] at hq
          cases hq
        · rw [decLoop_fst_not_mem _ _ _ _ hin, hp0] at hq
          cases hq
      | some p =>
        obtain ⟨_, p1, hp1, hle⟩ := key pid p hq
        rw [hp0] at hp1
        injection hp1 with hp2
        exact ⟨p, hq, by rw [← hp2] at hle; exact hle⟩

/-- Every operation preserves the invariant and never increases any
product stock. -/
theorem step_inv_mono (o : Op) {s : St} (h : Inv s) :
    Inv (step o s) ∧ ProdMono s.products (step o s).products := by
  cases o with
  | add uid pid q =>
    refine ⟨inv_addToCart uid pid q h, ?_⟩
    rw [show (step (.add uid pid q) s).products = s.products from
      (addToCart_frame uid pid q s).1]
    exact prodMono_refl _
  | update uid pid q =>
    refine ⟨inv_updateCartQuantity uid pid q h, ?_⟩
    rw [show (step (.update uid pid q) s).products = s.products from
      (updateCartQuantity_frame uid pid q s).1]
    exact prodMono_refl _
  | remove uid pid =>
    refine ⟨inv_removeFromCart uid pid h, ?_⟩
    rw [show (step (.remove uid pid) s).products = s.products from
      (removeFromCart_frame uid pid s).1]
    exact prodMono_refl _
  | clear uid =>
    refine ⟨inv_clearCart uid h, ?_⟩
    rw [show (step (.clear uid) s).products = s.products from
      (clearCart_frame uid s).1]
    exact prodMono_refl _
  | ck uid => exact checkout_inv_mono uid h

/-- Operation sequences preserve the invariant and only ever shrink
stocks. -/
theorem runSeq_inv_mono (ops : List Op) :
    ∀ {s : St}, Inv s →
      Inv (runSeq ops s) ∧ ProdMono s.products (runSeq ops s).products := by
  induction ops with
  | nil => intro s h; exact ⟨h, prodMono_refl _⟩
  | cons o rest ih =>
    intro s h
    obtain ⟨h1, h2⟩ := step_inv_mono o h
    obtain ⟨h3, h4⟩ := ih h1
    exact ⟨h3, prodMono_trans h2 h4⟩

/-- No operation removes committed orders. -/
theorem step_orders_len (o : Op) (s : St) :
    s.orders.length ≤ (step o s).orders.length := by
  cases o with
  | add uid pid q =>
    show s.orders.length ≤ (addToCart uid pid q s).2.orders.length
    rw [(addToCart_frame uid pid q s).2]
  | update uid pid q =>
    show s.orders.length ≤ (updateCartQuantity uid pid q s).2.orders.length
    rw [(updateCartQuantity_frame uid pid q s).2]
  | remove uid pid =>
    show s.orders.length ≤ (removeFromCart uid pid s).2.orders.length
    rw [(removeFromCart_frame uid pid s).2]
  | clear uid =>
    show s.orders.length ≤ (clearCart uid s).2.orders.length
    rw [(clearCart_frame uid s).2]
  | ck uid =>
    show s.orders.length ≤ (checkout uid s).2.orders.length
    cases hv : ckValidate uid s with
    | inl e => rw [checkout_inl_state hv]
    | inr up =>
      obtain ⟨user, pop⟩ := up
      rw [checkout_inr_state hv]
      show s.orders.length ≤ (s.orders ++ [mkOrder uid user pop s]).length
      rw [List.length_append]
      omega

/-- Order counts never shrink across a run. -/
theorem runSeq_orders_len (ops : List Op) :
    ∀ s : St, s.orders.length ≤ (runSeq ops s).orders.length := by
  induction ops with
  | nil => intro s; exact le_refl _
  | cons o rest ih =>
    intro s
    exact le_trans (step_orders_len o s) (ih (step o s))

/-- Writing the same user slot twice keeps only the last write. -/
theorem setUser_setUser (s : St) (uid : ℕ) (u u2 : User) :
    setUser (setUser s uid u) uid u2 = setUser s uid u2 := by
  unfold setUser
  have husers :
      (fun k => if k = uid then some u2
        else if k = uid then some u else s.users k) =
      fun k => if k = uid then some u2 else s.users k := by
    funext k
    by_cases hk : k = uid
    · rw [if_pos hk, if_pos hk]
    · rw [if_neg hk, if_neg hk, if_neg hk]
  show ({ s with users := fun k => if k = uid then some u2
    else if k = uid then some u else s.users k } : St) = _
  rw [husers]

/-- Reading back the slot just written. -/
theorem setUser_users_self (s : St) (uid : ℕ) (u : User) :
    (setUser s uid u).users uid = some u := by
  simp [setUser]

/-- Unfolding equation of the raw cart sum. -/
theorem rawCartSum_cons (ps : ℕ → Option Product) (it : CartItem) (rest : List CartItem) :
    rawCartSum ps (it :: rest) =
      (match ps it.productId with
        | some p => p.price
        | none => 0) * (it.quantity : ℚ) + rawCartSum ps rest := by
  simp [rawCartSum]

/-- The reduce of getCart computes exactly the raw sum of price times
quantity, with no rounding and no tax. -/
theorem cartTotal_raw (ps : ℕ → Option Product) :
    ∀ l t, cartTotal ps l = some t → t = rawCartSum ps l := by
  intro l
  induction l with
  | nil =>
    intro t h
    injection h with h2
    rw [← h2]
    simp [rawCartSum]
  | cons it rest ih =>
    intro t h
    simp only [cartTotal] at h
    split at h
    · rename_i p t2 hp ht2
      injection h with h2
      rw [← h2, rawCartSum_cons, hp, ih t2 ht2]
    · cases h

section ConcreteEvaluation

attribute [local semireducible] Rat.add Rat.mul Rat.inv Rat.sub

/-- C1: the claim states that each per-line decrement is conditional
on the pre-decrement value and that a failed decrement rolls the
checkout back. The source instead validates in one loop and then
decrements unconditionally in a second loop, with no rollback: in
stRace, two checkouts of three units each against a stock of five both
pass their validation phase on the initial state; committing them in
sequence, exactly as the awaited storage calls of two concurrent
requests interleave, ships both orders and drives the stored quantity
to minus one, with six units decremented out of five and neither order
retracted. -/
theorem checkout_race_unconditional_decrement :
    ckValidate 1 stRace = .inr (raceUserA, racePop) ∧
    ckValidate 2 stRace = .inr (raceUserB, racePop) ∧
    raceA.1 = .ok ⟨1, "ORD-001", [⟨1, "Widget", 1, 3, 3⟩], 3, 3 / 10, 33 / 10,
      "a1", "pending", "pending"⟩ ∧
    raceB.1 = .ok ⟨2, "ORD-002", [⟨1, "Widget", 1, 3, 3⟩], 3, 3 / 10, 33 / 10,
      "a2", "pending", "pending"⟩ ∧
    (raceB.2.products 1).map Product.quantity = some (-1) ∧
    raceB.2.orders.length = 2 := by
  refine ⟨rfl, rfl, by decide, by decide, by decide, by decide⟩

/-- C3: the claim states that a checkout failing on a storage-layer
error leaves no order visible. On the schedule where the decrement
call throws, checkout of stFault answers the generic failure, yet the
order it saved beforehand stays committed and is returned by both
order reads; nothing retracts it. -/
theorem checkout_fault_keeps_order_visible :
    (checkoutF fltDec 1 stFault).1 = .internalError ∧
    getOrders 1 (checkoutF fltDec 1 stFault).2 = [orderFault] ∧
    getOrderById "ORD-001" 1 (checkoutF fltDec 1 stFault).2 = .ok orderFault ∧
    ((checkoutF fltDec 1 stFault).2.users 1).map User.cart = some [⟨1, 2⟩] ∧
    ((checkoutF fltDec 1 stFault).2.products 1).map Product.quantity = some 5 := by
  refine ⟨by decide, by decide, by decide, by decide, by decide⟩

/-- C6 counterexample: the claim states that addToCart and checkout
fail on products whose status is inactive or discontinued. In
stNonActive product 2 is inactive, yet addToCart accepts two units of
it into a cart already holding the discontinued product 3. -/
theorem addToCart_accepts_inactive_product :
    (stNonActive.products 2).map Product.status = some .inactive ∧
    (stNonActive.products 3).map Product.status = some .discontinued ∧
    (addToCart 1 2 2 stNonActive).1 = .ok [⟨3, 1⟩, ⟨2, 2⟩] := by
  refine ⟨by decide, by decide, by decide⟩

/-- C6 amended: neither addToCart nor checkout consults the product
status field; a non-active product with sufficient stock is added to
the cart and checked out exactly like an active one, and the committed
order contains it. Here the cart holding the inactive product 2 and
the discontinued product 3 checks out successfully. -/
theorem nonactive_products_purchasable :
    (stNonActive.products 2).map Product.status = some .inactive ∧
    (stNonActive.products 3).map Product.status = some .discontinued ∧
    (checkout 1 (addToCart 1 2 2 stNonActive).2).1 = .ok orderNonActive ∧
    orderNonActive.items.map OrderItem.productId = [3, 2] := by
  refine ⟨by decide, by decide, by decide, by decide⟩

/-- C4 counterexample: the claim states tax = round2(subtotal * 0.10)
and total = round2(subtotal + tax) over the rounded subtotal. For a
single line priced 35.046 the committed order stores subtotal 35.05
but tax 3.50 = round2(35.046 * 0.10), computed from the raw sum, where
the claim formula over the stored subtotal gives round2(3.505) = 3.51;
the claimed chain likewise yields total 38.56 while the order stores
38.55. -/
theorem checkout_tax_from_raw_subtotal_cex :
    (checkout 1 stTaxGap).1 = .ok orderTaxGap ∧
    orderTaxGap.subtotal = 701 / 20 ∧
    orderTaxGap.tax = 7 / 2 ∧
    round2 (orderTaxGap.subtotal * (1 / 10)) = 351 / 100 ∧
    orderTaxGap.tax ≠ round2 (orderTaxGap.subtotal * (1 / 10)) ∧
    orderTaxGap.total ≠
      round2 (orderTaxGap.subtotal + round2 (orderTaxGap.subtotal * (1 / 10))) := by
  refine ⟨by decide, by decide, by decide, by decide, by decide, by decide⟩

/-- C2: starting from any state whose products all hold nonnegative
stock and whose carts are well formed, no sequence of public
operations ever drives a product quantity negative, quantities never
grow, and so the total quantity removed from a product with initial
stock S, which is S minus the final stock, never exceeds S. -/
theorem no_oversell (s0 : St) (ops : List Op) (pid : ℕ) (p0 p1 : Product)
    (hinv : Inv s0)
    (h0 : s0.products pid = some p0)
    (h1 : (runSeq ops s0).products pid = some p1) :
    0 ≤ p1.quantity ∧ p1.quantity ≤ p0.quantity ∧
      p0.quantity - p1.quantity ≤ p0.quantity := by
  obtain ⟨hinv2, hmono⟩ := runSeq_inv_mono ops hinv
  obtain ⟨p2, hp2, hle⟩ := hmono pid p0 h0
  rw [h1] at hp2
  injection hp2 with h3
  subst h3
  have hq := hinv2.1 pid p1 h1
  exact ⟨hq, hle, by omega⟩

/-- C2 witness: an add of two units followed by a checkout against a
stock of five leaves stock three, between zero and five. -/
theorem no_oversell_witness :
    Inv stFresh ∧
    stFresh.products 1 = some ⟨"Widget", 2, 5, .active⟩ ∧
    (runSeq [.add 1 1 2, .ck 1] stFresh).products 1 =
      some ⟨"Widget", 2, 3, .active⟩ ∧
    (0 ≤ (3 : ℤ) ∧ (3 : ℤ) ≤ 5 ∧ (5 : ℤ) - 3 ≤ 5) := by
  have hinv : Inv stFresh := by
    constructor
    · intro pid p hp
      simp only [stFresh] at hp
      by_cases h1 : pid = 1
      · rw [if_pos h1] at hp
        injection hp with h2
        rw [← h2]
        decide
      · rw [if_neg h1] at hp; cases hp
    · intro uid u hu
      simp only [stFresh] at hu
      by_cases h1 : uid = 1
      · rw [if_pos h1] at hu
        injection hu with h2
        rw [← h2]
        exact goodCart_nil
      · rw [if_neg h1] at hu; cases hu
  have h0 : stFresh.products 1 = some ⟨"Widget", 2, 5, .active⟩ := rfl
  have h1 : (runSeq [.add 1 1 2, .ck 1] stFresh).products 1 =
      some ⟨"Widget", 2, 3, .active⟩ := by decide
  exact ⟨hinv, h0, h1, no_oversell stFresh [.add 1 1 2, .ck 1] 1 _ _ hinv h0 h1⟩

/-- C5: a successful checkout allocates ORD- followed by the zero
padded value of one plus the number of previously committed orders,
and across any later operations a second successful checkout allocates
a strictly larger counter and therefore a different order id. -/
theorem checkout_order_ids_monotone
    (s0 : St) (u1 u2 : ℕ) (mid : List Op) (o1 o2 : Order)
    (h1 : (checkout u1 s0).1 = .ok o1)
    (h2 : (checkout u2 (runSeq mid (checkout u1 s0).2)).1 = .ok o2) :
    o1.orderId = mkOrderId (s0.orders.length + 1) ∧
      (∃ c2, o2.orderId = mkOrderId c2 ∧ s0.orders.length + 1 < c2) ∧
      o1.orderId ≠ o2.orderId := by
  obtain ⟨hid1, hord1⟩ := checkout_ok_facts h1
  obtain ⟨hid2, _⟩ := checkout_ok_facts h2
  have hlen1 : (checkout u1 s0).2.orders.length = s0.orders.length + 1 := by
    rw [hord1, List.length_append]
    rfl
  have hlen2 : s0.orders.length + 1 ≤
      (runSeq mid (checkout u1 s0).2).orders.length := by
    rw [← hlen1]
    exact runSeq_orders_len mid _
  refine ⟨hid1,
    ⟨(runSeq mid (checkout u1 s0).2).orders.length + 1, hid2, by omega⟩, ?_⟩
  rw [hid1, hid2]
  intro hcontra
  have := mkOrderId_inj hcontra
  omega

/-- C5 witness: two back-to-back checkouts on stPair allocate ORD-001
then ORD-002. -/
theorem checkout_order_ids_monotone_witness :
    (checkout 1 stPair).1 = .ok orderPair1 ∧
    (checkout 2 (runSeq [] (checkout 1 stPair).2)).1 = .ok orderPair2 ∧
    (orderPair1.orderId = mkOrderId (stPair.orders.length + 1) ∧
      (∃ c2, orderPair2.orderId = mkOrderId c2 ∧ stPair.orders.length + 1 < c2) ∧
      orderPair1.orderId ≠ orderPair2.orderId) := by
  have h1 : (checkout 1 stPair).1 = .ok orderPair1 := by decide
  have h2 : (checkout 2 (runSeq [] (checkout 1 stPair).2)).1 = .ok orderPair2 := by
    decide
  exact ⟨h1, h2, checkout_order_ids_monotone stPair 1 2 [] orderPair1 orderPair2 h1 h2⟩

/-- C4 amended: every committed order satisfies subtotal =
round2(raw), tax = round2(raw * 0.10) and total = round2(raw + tax),
where raw is the unrounded sum of the line subtotals; tax and total
are computed from the raw sum, not from the stored rounded subtotal. -/
theorem checkout_totals_formulas {uid : ℕ} {s : St} {o : Order}
    (h : (checkout uid s).1 = .ok o) :
    o.subtotal = round2 (itemsSubtotal o.items) ∧
      o.tax = round2 (itemsSubtotal o.items * (1 / 10)) ∧
      o.total = round2 (itemsSubtotal o.items + o.tax) := by
  cases hv : ckValidate uid s with
  | inl e =>
    exfalso
    rw [checkout_inl_state hv] at h
    exact ckValidate_inl_ne_ok hv o h
  | inr up =>
    obtain ⟨user, pop⟩ := up
    rw [checkout_inr_state hv] at h
    have h2 : CkRes.ok (mkOrder uid user pop s) = CkRes.ok o := h
    injection h2 with h3
    subst h3
    exact ⟨rfl, rfl, rfl⟩

/-- C4 witness: the spec example cart of two units at 10.00 and three
at 5.005 commits subtotal 35.02, tax 3.50, total 38.52. -/
theorem checkout_totals_formulas_witness :
    (checkout 1 stSpecItems).1 = .ok orderSpecItems ∧
    (orderSpecItems.subtotal = round2 (itemsSubtotal orderSpecItems.items) ∧
      orderSpecItems.tax = round2 (itemsSubtotal orderSpecItems.items * (1 / 10)) ∧
      orderSpecItems.total =
        round2 (itemsSubtotal orderSpecItems.items + orderSpecItems.tax)) ∧
    orderSpecItems.subtotal = 1751 / 50 ∧
    orderSpecItems.tax = 7 / 2 ∧
    orderSpecItems.total = 963 / 25 := by
  have h : (checkout 1 stSpecItems).1 = .ok orderSpecItems := by decide
  exact ⟨h, checkout_totals_formulas h, by decide, by decide, by decide⟩

/-- C7: when the cart already has a line for the product, addToCart
never adds a second line: it either rejects with the stock bound when
the merged quantity exceeds the observed availableQuantity, or
replaces the quantity of the existing line with the merged quantity,
keeping the line count and the referenced products unchanged. -/
theorem addToCart_merges (s : St) (uid pid : ℕ) (q : ℤ) (u : User)
    (prod : Product) (it : CartItem)
    (hq : 0 < q)
    (hu : s.users uid = some u)
    (hp : s.products pid = some prod)
    (hfind : u.cart.find? (fun x => x.productId == pid) = some it)
    (hstock : q ≤ prod.quantity) :
    (prod.quantity < it.quantity + q →
        addToCart uid pid q s = (.error (.insufficientStock prod.quantity), s)) ∧
      (it.quantity + q ≤ prod.quantity →
        addToCart uid pid q s =
          (.ok (setQtyFirst pid (it.quantity + q) u.cart),
            setUser s uid { u with cart := setQtyFirst pid (it.quantity + q) u.cart }) ∧
        (setQtyFirst pid (it.quantity + q) u.cart).length = u.cart.length ∧
        (setQtyFirst pid (it.quantity + q) u.cart).map CartItem.productId =
          u.cart.map CartItem.productId ∧
        (setQtyFirst pid (it.quantity + q) u.cart).find?
            (fun x => x.productId == pid) = some ⟨pid, it.quantity + q⟩) := by
  have hq0 : ¬q ≤ 0 := by omega
  have hlt : ¬prod.quantity < q := by omega
  constructor
  · intro hover
    simp only [addToCart, if_neg hq0, hu, hp, if_neg hlt, hfind]
    rw [if_pos hover]
  · intro hle
    have hnot : ¬prod.quantity < it.quantity + q := by omega
    refine ⟨?_, ?_, setQtyFirst_map_productId pid (it.quantity + q) u.cart,
      setQtyFirst_find pid (it.quantity + q) u.cart it hfind⟩
    · simp only [addToCart, if_neg hq0, hu, hp, if_neg hlt, hfind]
      rw [if_neg hnot]
    · have hmap := congrArg List.length
        (setQtyFirst_map_productId pid (it.quantity + q) u.cart)
      simpa using hmap

/-- C7 witness: adding two then three units of the same product to an
empty cart with stock five ends with the single line of quantity five. -/
theorem addToCart_merges_witness :
    (0 : ℤ) < 3 ∧
    (addToCart 1 1 2 stFresh).2.users 1 = some ⟨"a1", [⟨1, 2⟩]⟩ ∧
    (addToCart 1 1 2 stFresh).2.products 1 = some ⟨"Widget", 2, 5, .active⟩ ∧
    ([⟨1, 2⟩] : List CartItem).find? (fun x => x.productId == 1) = some ⟨1, 2⟩ ∧
    (3 : ℤ) ≤ 5 ∧
    (addToCart 1 1 3 (addToCart 1 1 2 stFresh).2).1 = .ok [⟨1, 5⟩] := by
  have h := addToCart_merges ((addToCart 1 1 2 stFresh).2) 1 1 3 ⟨"a1", [⟨1, 2⟩]⟩
    ⟨"Widget", 2, 5, .active⟩ ⟨1, 2⟩ (by decide) (by decide) (by decide) (by decide)
    (by decide)
  have h2 := (h.2 (by decide)).1
  refine ⟨by decide, by decide, by decide, by decide, by decide, ?_⟩
  rw [h2]
  decide

/-- C8: the four mutating cart operations return the product table of
the state unchanged, document for document; only checkout mutates
inventory. getCart is a pure read and returns no state at all. -/
theorem cart_ops_do_not_touch_inventory (uid pid : ℕ) (q : ℤ) (s : St) :
    (addToCart uid pid q s).2.products = s.products ∧
      (updateCartQuantity uid pid q s).2.products = s.products ∧
      (removeFromCart uid pid s).2.products = s.products ∧
      (clearCart uid s).2.products = s.products :=
  ⟨(addToCart_frame uid pid q s).1, (updateCartQuantity_frame uid pid q s).1,
    (removeFromCart_frame uid pid s).1, (clearCart_frame uid s).1⟩

/-- C9: removing a product that has no line in the cart succeeds with
the cart unchanged, and removing twice always equals removing once,
response and state alike. -/
theorem removeFromCart_absent_noop_idem (s : St) (uid pid : ℕ) (u : User)
    (hu : s.users uid = some u)
    (habs : ∀ it ∈ u.cart, it.productId ≠ pid) :
    removeFromCart uid pid s = (.ok u.cart, s) ∧
      ∀ (s2 : St) (v w : ℕ),
        removeFromCart v w (removeFromCart v w s2).2 = removeFromCart v w s2 := by
  constructor
  · have hfilter : u.cart.filter (fun it => it.productId != pid) = u.cart :=
      List.filter_eq_self.mpr fun it hit => by simpa using habs it hit
    simp only [removeFromCart, hu, hfilter]
    show (Except.ok u.cart, setUser s uid u) = (Except.ok u.cart, s)
    have hs : setUser s uid u = s := by
      have husers :
          (fun k => if k = uid then some u else s.users k) = s.users := by
        funext k
        by_cases hk : k = uid
        · rw [if_pos hk, hk, hu]
        · rw [if_neg hk]
      show ({ s with users := fun k => if k = uid then some u else s.users k } : St) = s
      rw [husers]
    rw [hs]
  · intro s2 v w
    cases hu2 : s2.users v with
    | none =>
      have h1 : removeFromCart v w s2 = (.error .userNotFound, s2) := by
        simp only [removeFromCart, hu2]
      rw [h1]
      show removeFromCart v w s2 = _
      rw [h1]
    | some u2 =>
      have h1 : removeFromCart v w s2 =
          (.ok (u2.cart.filter fun it => it.productId != w),
            setUser s2 v { u2 with cart := u2.cart.filter fun it => it.productId != w }) := by
        simp only [removeFromCart, hu2]
      have hidem :
          (u2.cart.filter fun it => it.productId != w).filter
              (fun it => it.productId != w) =
            u2.cart.filter fun it => it.productId != w :=
        List.filter_eq_self.mpr fun a ha => (List.mem_filter.mp ha).2
      rw [h1]
      show removeFromCart v w
        (setUser s2 v { u2 with cart := u2.cart.filter fun it => it.productId != w }) = _
      simp only [removeFromCart, setUser_users_self]
      rw [hidem, setUser_setUser]

/-- C9 witness: removing an absent product from the empty cart of
stFresh succeeds and changes nothing; the second conjunct is the
idempotence itself. -/
theorem removeFromCart_absent_noop_idem_witness :
    stFresh.users 1 = some ⟨"a1", []⟩ ∧
    (∀ it ∈ ([] : List CartItem), it.productId ≠ 7) ∧
    (removeFromCart 1 7 stFresh = (.ok ([] : List CartItem), stFresh) ∧
      ∀ (s2 : St) (v w : ℕ),
        removeFromCart v w (removeFromCart v w s2).2 = removeFromCart v w s2) := by
  refine ⟨rfl, by decide, ?_⟩
  exact removeFromCart_absent_noop_idem stFresh 1 7 ⟨"a1", []⟩ rfl (by decide)

/-- C10: the total of getCart is exactly the raw unrounded sum of
price times quantity over the lines, with no tax and no two-decimal
rounding, so it can differ from what checkout would commit: the cart
of stHalfCent totals 5.005 while checkout stores subtotal 5.01 and
total 5.51. -/
theorem getCart_total_raw (s : St) (uid : ℕ) (lines : List CartItem) (t : ℚ)
    (h : getCart uid s = some (lines, t)) :
    t = rawCartSum s.products lines ∧
      (getCart 1 stHalfCent = some ([⟨1, 1⟩], 1001 / 200) ∧
        (checkout 1 stHalfCent).1 = .ok orderHalfCent ∧
        orderHalfCent.subtotal ≠ 1001 / 200 ∧
        orderHalfCent.total ≠ 1001 / 200) := by
  constructor
  · unfold getCart at h
    split at h
    · cases h
    · rename_i user hu
      cases ht : cartTotal s.products user.cart with
      | none => rw [ht] at h; cases h
      | some t2 =>
        rw [ht] at h
        simp only [Option.map_some'] at h
        injection h with h2
        have h3 : user.cart = lines := congrArg Prod.fst h2
        have h4 : t2 = t := congrArg Prod.snd h2
        rw [← h3, ← h4]
        exact cartTotal_raw s.products user.cart t2 ht
  · exact ⟨by decide, by decide, by decide, by decide⟩

/-- C10 witness: instantiated on stHalfCent itself. -/
theorem getCart_total_raw_witness :
    getCart 1 stHalfCent = some ([⟨1, 1⟩], 1001 / 200) ∧
    ((1001 : ℚ) / 200 = rawCartSum stHalfCent.products [⟨1, 1⟩] ∧
      (getCart 1 stHalfCent = some ([⟨1, 1⟩], 1001 / 200) ∧
        (checkout 1 stHalfCent).1 = .ok orderHalfCent ∧
        orderHalfCent.subtotal ≠ 1001 / 200 ∧
        orderHalfCent.total ≠ 1001 / 200)) := by
  have h : getCart 1 stHalfCent = some ([⟨1, 1⟩], 1001 / 200) := by decide
  exact ⟨h, getCart_total_raw stHalfCent 1 [⟨1, 1⟩] (1001 / 200) h⟩

end ConcreteEvaluation

end Payplex
